import Mathlib

/-!
Verification development for the CodeOS Workflow Run Engine
(packages/core/src/workflow.ts, class WorkflowEngine).

The engine is shallowly embedded as pure functions over an explicit
EngineState.  Wall-clock reads (new Date / Date.now) are modelled by a
tick counter; the filesystem-persisted meta.json document is modelled by
a keyed store of JSON values written by saveMetadata; the append-only
logs.txt stream by a list of log entries; setTimeout back-off waits by a
list of recorded delays; and the role dispatcher (runPlanner, runBuilder,
runVerifier, runReviewer - external collaborators) by an oracle that maps
the invocation history and the role to either a produced artifact list or
a thrown error message.  Each dispatcher invocation is recorded in the
history together with the index of the step that performed it.
-/

namespace CodeOS

/-- Role names, from roles.ts (RoleName). -/
inductive RoleName where
  | planner
  | builder
  | verifier
  | reviewer
deriving DecidableEq, Repr

/-- WorkflowStep: { role, name, description }. -/
structure WorkflowStep where
  role : RoleName
  name : String
  description : String
deriving DecidableEq, Repr

/-- Step statuses of WorkflowStepResult.status. -/
inductive StepStatus where
  | pending
  | running
  | completed
  | failed
  | skipped
deriving DecidableEq, Repr

/-- Run statuses of WorkflowRun.status. -/
inductive RunStatus where
  | running
  | completed
  | failed
  | cancelled
deriving DecidableEq, Repr

/-- WorkflowStepResult, with ISO timestamps modelled as tick counts. -/
structure WorkflowStepResult where
  step : WorkflowStep
  status : StepStatus
  startedAt : Option Nat
  completedAt : Option Nat
  duration : Option Nat
  error : Option String
  artifacts : Option (List String)
  logs : Option (List String)
deriving DecidableEq, Repr

/-- WorkflowRun, the persisted aggregate. -/
structure WorkflowRun where
  id : String
  workflow : String
  startedAt : Nat
  completedAt : Option Nat
  status : RunStatus
  currentStep : Option Nat
  steps : List WorkflowStepResult
  error : Option String
deriving DecidableEq, Repr

/-- Log levels used by WorkflowEngine.log. -/
inductive LogLevel where
  | info
  | warn
  | error
deriving DecidableEq, Repr

/-- One structured record of the append-only logs.txt stream. -/
structure LogEntry where
  level : LogLevel
  message : String
deriving DecidableEq, Repr

/-- JSON values, for the meta.json document written by saveMetadata
(JSON.stringify) and read back by loadRun (JSON.parse). -/
inductive Json where
  | null : Json
  | bool : Bool → Json
  | num : Nat → Json
  | str : String → Json
  | arr : List Json → Json
  | obj : List (String × Json) → Json

/-- The dispatcher-call history: for bookkeeping, each entry records the
index of the step that invoked the dispatcher and the dispatched role. -/
def CallTrace := List (Nat × RoleName)

/-- The role dispatcher as an external collaborator: given the invocation
history so far and a role, it either returns the artifact paths produced
(already made root-relative, as executeRole does) or throws a message. -/
def Oracle := List (Nat × RoleName) → RoleName → Except String (List String)

/-- The full mutable state owned by one WorkflowEngine instance. -/
structure EngineState where
  run : WorkflowRun
  clock : Nat
  store : List (String × Json)
  logs : List LogEntry
  delays : List Nat
  calls : List (Nat × RoleName)

/-- One wall-clock read (new Date / Date.now): returns the current tick
and advances the clock. -/
def tick (s : EngineState) : Nat × EngineState :=
  (s.clock, { s with clock := s.clock + 1 })

/-- WorkflowEngine.log: appends one JSON-lines record to logs.txt. -/
def logEv (lvl : LogLevel) (msg : String) (s : EngineState) : EngineState :=
  { s with logs := s.logs ++ [{ level := lvl, message := msg }] }

/-- Key lookup in an association list; models both JSON-object field
access after JSON.parse and reading the per-run meta.json document
(the most recent write for a key is found first). -/
def lookupField (fields : List (String × Json)) (k : String) : Option Json :=
  (fields.find? (fun p => p.1 == k)).map Prod.snd

/-- Encoding of a RoleName as JSON.stringify renders it. -/
def encodeRole : RoleName → Json
  | .planner => .str "planner"
  | .builder => .str "builder"
  | .verifier => .str "verifier"
  | .reviewer => .str "reviewer"

/-- Encoding of a StepStatus as JSON.stringify renders it. -/
def encodeStepStatus : StepStatus → Json
  | .pending => .str "pending"
  | .running => .str "running"
  | .completed => .str "completed"
  | .failed => .str "failed"
  | .skipped => .str "skipped"

/-- Encoding of a RunStatus as JSON.stringify renders it. -/
def encodeRunStatus : RunStatus → Json
  | .running => .str "running"
  | .completed => .str "completed"
  | .failed => .str "failed"
  | .cancelled => .str "cancelled"

/-- An optional object field: JSON.stringify omits properties whose value
is undefined, so a none field contributes no key at all. -/
def optField (k : String) : Option Json → List (String × Json)
  | none => []
  | some j => [(k, j)]

/-- Encoding of a WorkflowStep object. -/
def encodeWorkflowStep (st : WorkflowStep) : Json :=
  .obj [("role", encodeRole st.role), ("name", .str st.name),
        ("description", .str st.description)]

/-- Encoding of a WorkflowStepResult object. -/
def encodeStepResult (r : WorkflowStepResult) : Json :=
  .obj ([("step", encodeWorkflowStep r.step), ("status", encodeStepStatus r.status)]
    ++ optField "startedAt" (r.startedAt.map Json.num)
    ++ optField "completedAt" (r.completedAt.map Json.num)
    ++ optField "duration" (r.duration.map Json.num)
    ++ optField "error" (r.error.map Json.str)
    ++ optField "artifacts" (r.artifacts.map (fun a => Json.arr (a.map Json.str)))
    ++ optField "logs" (r.logs.map (fun a => Json.arr (a.map Json.str))))

/-- Encoding of the whole WorkflowRun document, as saveMetadata writes it. -/
def encodeRun (r : WorkflowRun) : Json :=
  .obj ([("id", .str r.id), ("workflow", .str r.workflow), ("startedAt", .num r.startedAt)]
    ++ optField "completedAt" (r.completedAt.map Json.num)
    ++ [("status", encodeRunStatus r.status)]
    ++ optField "currentStep" (r.currentStep.map Json.num)
    ++ [("steps", .arr (r.steps.map encodeStepResult))]
    ++ optField "error" (r.error.map Json.str))

/-- WorkflowEngine.saveMetadata: writes the full run document (overwrite
of the meta.json path; the newest write shadows older ones). -/
def saveMetadata (s : EngineState) : EngineState :=
  { s with store := (s.run.id, encodeRun s.run) :: s.store }

/-- Reading a RoleName back from the parsed document. -/
def decodeRole : Json → Option RoleName
  | .str "planner" => some .planner
  | .str "builder" => some .builder
  | .str "verifier" => some .verifier
  | .str "reviewer" => some .reviewer
  | _ => none

/-- Reading a StepStatus back from the parsed document. -/
def decodeStepStatus : Json → Option StepStatus
  | .str "pending" => some .pending
  | .str "running" => some .running
  | .str "completed" => some .completed
  | .str "failed" => some .failed
  | .str "skipped" => some .skipped
  | _ => none

/-- Reading a RunStatus back from the parsed document. -/
def decodeRunStatus : Json → Option RunStatus
  | .str "running" => some .running
  | .str "completed" => some .completed
  | .str "failed" => some .failed
  | .str "cancelled" => some .cancelled
  | _ => none

/-- Reading a number back from the parsed document. -/
def decodeNat : Json → Option Nat
  | .num n => some n
  | _ => none

/-- Reading a string back from the parsed document. -/
def decodeString : Json → Option String
  | .str v => some v
  | _ => none

/-- Reading a homogeneous array back from the parsed document. -/
def decodeList (dec : Json → Option α) : List Json → Option (List α)
  | [] => some []
  | j :: js => do
    let a ← dec j
    let rest ← decodeList dec js
    some (a :: rest)

/-- Reading a string array back from the parsed document. -/
def decodeStrList : Json → Option (List String)
  | .arr xs => decodeList decodeString xs
  | _ => none

/-- Reading an optional property: an absent key is undefined. -/
def decodeOptField (fields : List (String × Json)) (k : String)
    (dec : Json → Option α) : Option (Option α) :=
  match lookupField fields k with
  | none => some none
  | some j => (dec j).map some

/-- Reading a WorkflowStep object back from the parsed document. -/
def decodeWorkflowStep : Json → Option WorkflowStep
  | .obj fields => do
    let jr ← lookupField fields "role"
    let r ← decodeRole jr
    let jn ← lookupField fields "name"
    let n ← decodeString jn
    let jd ← lookupField fields "description"
    let d ← decodeString jd
    some { role := r, name := n, description := d }
  | _ => none

/-- Reading a WorkflowStepResult object back from the parsed document. -/
def decodeStepResult : Json → Option WorkflowStepResult
  | .obj fields => do
    let js ← lookupField fields "step"
    let sp ← decodeWorkflowStep js
    let jst ← lookupField fields "status"
    let st ← decodeStepStatus jst
    let sa ← decodeOptField fields "startedAt" decodeNat
    let ca ← decodeOptField fields "completedAt" decodeNat
    let du ← decodeOptField fields "duration" decodeNat
    let er ← decodeOptField fields "error" decodeString
    let ar ← decodeOptField fields "artifacts" decodeStrList
    let lg ← decodeOptField fields "logs" decodeStrList
    some { step := sp, status := st, startedAt := sa, completedAt := ca,
           duration := du, error := er, artifacts := ar, logs := lg }
  | _ => none

/-- Reading the whole WorkflowRun document back, as loadRun's JSON.parse
followed by the structural assignment engine.run = metaData does. -/
def decodeRun : Json → Option WorkflowRun
  | .obj fields => do
    let ji ← lookupField fields "id"
    let i ← decodeString ji
    let jw ← lookupField fields "workflow"
    let w ← decodeString jw
    let jsa ← lookupField fields "startedAt"
    let sa ← decodeNat jsa
    let ca ← decodeOptField fields "completedAt" decodeNat
    let jst ← lookupField fields "status"
    let st ← decodeRunStatus jst
    let cs ← decodeOptField fields "currentStep" decodeNat
    let jss ← lookupField fields "steps"
    let ss ← match jss with
      | .arr xs => decodeList decodeStepResult xs
      | _ => none
    let er ← decodeOptField fields "error" decodeString
    some { id := i, workflow := w, startedAt := sa, completedAt := ca,
           status := st, currentStep := cs, steps := ss, error := er }
  | _ => none

/-- The fresh StepResult built by initialization: { step, status: pending }
with every other property still undefined. -/
def freshStepResult (st : WorkflowStep) : WorkflowStepResult :=
  { step := st, status := .pending, startedAt := none, completedAt := none,
    duration := none, error := none, artifacts := none, logs := none }

/-- WorkflowEngine.initialize: replaces run.steps with one pending
StepResult per configured step, persists, and logs the start event.
(The mkdir of the run directory has no observable state here.) -/
def initRun (config : List WorkflowStep) (s : EngineState) : EngineState :=
  let s₁ := { s with run := { s.run with steps := config.map freshStepResult } }
  let s₂ := saveMetadata s₁
  logEv .info ("Workflow " ++ s.run.workflow ++ " started") s₂

/-- WorkflowEngine.executeRole: dispatches on the role (the switch over
runPlanner / runBuilder / runVerifier / runReviewer) and returns the
root-relative artifact paths, or re-raises the role failure.  The step
index i is recorded in the call trace purely as bookkeeping. -/
def executeRole (oracle : Oracle) (i : Nat) (role : RoleName) (s : EngineState) :
    Except String (List String) × EngineState :=
  (oracle s.calls role, { s with calls := s.calls ++ [(i, role)] })

/-- WorkflowEngine.executeStep: marks the step running with a start
timestamp, persists, invokes the role dispatcher, and records the
completed or failed outcome (timestamps, duration, artifacts or error),
persisting again in both branches, as the try/catch/finally does. -/
def executeStep (oracle : Oracle) (i : Nat) (s : EngineState) :
    Except String Unit × EngineState :=
  match s.run.steps[i]? with
  | none => (.error ("Step " ++ toString i ++ " not found"), s)
  | some sr =>
    let s₁ := { s with run := { s.run with currentStep := some i } }
    let (t, s₂) := tick s₁
    let sr₁ := { sr with status := StepStatus.running, startedAt := some t }
    let s₃ := { s₂ with run := { s₂.run with steps := s₂.run.steps.set i sr₁ } }
    let s₄ := saveMetadata (logEv .info ("Starting step: " ++ sr.step.name) s₃)
    let (t₀, s₅) := tick s₄
    match executeRole oracle i sr.step.role s₅ with
    | (.ok artifacts, s₆) =>
      let (tc, s₇) := tick s₆
      let (tn, s₈) := tick s₇
      let sr₂ := { sr₁ with
        status := StepStatus.completed
        completedAt := some tc
        duration := some (tn - t₀)
        artifacts := some artifacts }
      let s₉ := { s₈ with run := { s₈.run with steps := s₈.run.steps.set i sr₂ } }
      (.ok (), saveMetadata (logEv .info ("Completed step: " ++ sr.step.name) s₉))
    | (.error e, s₆) =>
      let (tc, s₇) := tick s₆
      let (tn, s₈) := tick s₇
      let sr₂ := { sr₁ with
        status := StepStatus.failed
        completedAt := some tc
        duration := some (tn - t₀)
        error := some e }
      let s₉ := { s₈ with run := { s₈.run with steps := s₈.run.steps.set i sr₂ } }
      (.error e, saveMetadata (logEv .error ("Failed step: " ++ sr.step.name) s₉))

/-- The retry while-loop shared by executeWorkflow and
executeWorkflowSteps: while (attempts <= retries) try executeStep,
breaking on success; on failure increment attempts and, if attempts is
still within the bound, log a warning and wait 1000 * attempts ms before
the next try.  fuel is the number of loop iterations still allowed,
retries + 1 - attempts; a is the current value of attempts.  When the
loop guard fails with no recorded failure the step is treated as done
(exactly the if (lastError && attempts > retries) post-check). -/
def retryLoop (oracle : Oracle) (i : Nat) : Nat → Nat → EngineState →
    Except String Unit × EngineState
  | 0, _, s => (.ok (), s)
  | fuel + 1, a, s =>
    match executeStep oracle i s with
    | (.ok _, s') => (.ok (), s')
    | (.error e, s') =>
      match fuel with
      | 0 => (.error e, s')
      | fuel' + 1 =>
        let s'' := logEv .warn "Step failed, retrying" s'
        let s''' := { s'' with delays := s''.delays ++ [1000 * (a + 1)] }
        retryLoop oracle i (fuel' + 1) (a + 1) s'''

/-- One step driven to a terminal outcome by the Retry Controller: the
retry loop followed by the post-loop check that, on exhausted retries,
marks the whole run failed, persists it, and re-raises the last error. -/
def runStepWithRetries (oracle : Oracle) (i retries : Nat) (s : EngineState) :
    Except String Unit × EngineState :=
  match retryLoop oracle i (retries + 1) 0 s with
  | (.ok _, s') => (.ok (), s')
  | (.error e, s') =>
    let (t, s₁) := tick s'
    let s₂ := { s₁ with run := { s₁.run with
                  status := RunStatus.failed
                  error := some e
                  completedAt := some t } }
    (.error e, saveMetadata s₂)

/-- The for-loop over step indices shared by executeWorkflow and
executeWorkflowSteps: for (let i = resumeFromStep; i < config.steps.length;
i++), each iteration a runStepWithRetries, aborting on a propagated
failure.  rem is the number of indices left, config.steps.length - i. -/
def stepsLoop (oracle : Oracle) (retries : Nat) : Nat → Nat → EngineState →
    Except String Unit × EngineState
  | 0, _, s => (.ok (), s)
  | rem + 1, i, s =>
    match runStepWithRetries oracle i retries s with
    | (.ok _, s') => stepsLoop oracle retries rem (i + 1) s'
    | (.error e, s') => (.error e, s')

/-- The options object of executeWorkflow / executeWorkflowSteps; an
absent property means the default (retries = 1, resumeFromStep = 0). -/
structure ExecOptions where
  retries : Option Nat
  resumeFromStep : Option Nat
deriving DecidableEq, Repr

/-- WorkflowEngine.executeWorkflowSteps: the steps loop, then the shared
epilogue - on success mark the run completed with a completion timestamp
and log; on a propagated failure mark it failed with the error message
and log; in either case persist (the finally) and return the run or
re-raise. -/
def executeWorkflowSteps (oracle : Oracle) (config : List WorkflowStep)
    (opts : ExecOptions) (s : EngineState) : Except String WorkflowRun × EngineState :=
  let retries := opts.retries.getD 1
  let resumeFromStep := opts.resumeFromStep.getD 0
  match stepsLoop oracle retries (config.length - resumeFromStep) resumeFromStep s with
  | (.ok _, s') =>
    let (t, s₁) := tick s'
    let s₂ := { s₁ with run := { s₁.run with
                  status := RunStatus.completed
                  completedAt := some t } }
    let s₃ := saveMetadata (logEv .info "Workflow completed successfully" s₂)
    (.ok s₃.run, s₃)
  | (.error e, s') =>
    let (t, s₁) := tick s'
    let s₂ := { s₁ with run := { s₁.run with
                  status := RunStatus.failed
                  error := some e
                  completedAt := some t } }
    let s₃ := saveMetadata (logEv .error "Workflow failed" s₂)
    (.error e, s₃)

/-- WorkflowEngine.executeWorkflow: initializes the run (resetting
run.steps to fresh pending StepResults) and then runs the same loop and
epilogue as executeWorkflowSteps, whose body it duplicates verbatim in
the source. -/
def executeWorkflow (oracle : Oracle) (config : List WorkflowStep)
    (opts : ExecOptions) (s : EngineState) : Except String WorkflowRun × EngineState :=
  executeWorkflowSteps oracle config opts (initRun config s)

/-- WorkflowEngine.resume: finds the first step whose status is pending
or failed (throwing when there is none), logs, rebuilds the config from
the recorded steps, and delegates to executeWorkflow with only
resumeFromStep set (the retries option is not forwarded). -/
def resume (oracle : Oracle) (s : EngineState) : Except String WorkflowRun × EngineState :=
  match s.run.steps.findIdx?
      (fun sr => sr.status == StepStatus.pending || sr.status == StepStatus.failed) with
  | none => (.error "No steps to resume", s)
  | some k =>
    let s₁ := logEv .info "Resuming workflow" s
    executeWorkflow oracle (s₁.run.steps.map (fun sr => sr.step))
      { retries := none, resumeFromStep := some k } s₁

/-- retryFromStep's per-step reset: every StepResult at index ≥ the reset
point goes back to pending with startedAt, completedAt, duration, error
and artifacts set to undefined. -/
def clearStepResult (sr : WorkflowStepResult) : WorkflowStepResult :=
  { sr with
    status := StepStatus.pending
    startedAt := none
    completedAt := none
    duration := none
    error := none
    artifacts := none }

/-- The reset for-loop of retryFromStep: clears the StepResults at
indices ≥ k and leaves the ones before k untouched. -/
def resetFrom (k : Nat) : List WorkflowStepResult → List WorkflowStepResult
  | [] => []
  | sr :: rest =>
    (if k = 0 then clearStepResult sr else sr) :: resetFrom (k - 1) rest

/-- WorkflowEngine.retryFromStep: validates the index (throwing Invalid
step index and touching nothing otherwise), resets every StepResult at
and after the index, resets run.status to running clearing run.error and
run.completedAt, logs, rebuilds the config from the recorded steps, and
executes forward from the index via executeWorkflowSteps - deliberately
not reinitializing, to preserve the run state before the index.  The
retries option is not forwarded. -/
def retryFromStep (oracle : Oracle) (stepIndex : Int) (s : EngineState) :
    Except String WorkflowRun × EngineState :=
  if stepIndex < 0 ∨ (s.run.steps.length : Int) ≤ stepIndex then
    (.error ("Invalid step index: " ++ toString stepIndex ++
      ". Must be between 0 and " ++ toString ((s.run.steps.length : Int) - 1)), s)
  else
    let k := stepIndex.toNat
    let s₁ := { s with run := { s.run with steps := resetFrom k s.run.steps } }
    let s₂ := { s₁ with run := { s₁.run with
                  status := RunStatus.running
                  error := none
                  completedAt := none } }
    let s₃ := logEv .info "Retrying workflow from step" s₂
    executeWorkflowSteps oracle (s₃.run.steps.map (fun sr => sr.step))
      { retries := none, resumeFromStep := some k } s₃

/-- WorkflowEngine.loadRun: reads the persisted meta.json document for a
run id back into a Run value (engine.run = JSON.parse(...)). -/
def loadRun (store : List (String × Json)) (runId : String) : Option WorkflowRun :=
  (lookupField store runId).bind decodeRun

/-- The WorkflowEngine constructor: a fresh engine with a running, empty
run (id and startedAt both derived from the clock). -/
def mkEngine (runId workflow : String) (clock : Nat) : EngineState :=
  { run := { id := runId, workflow := workflow, startedAt := clock,
             completedAt := none, status := RunStatus.running,
             currentStep := some 0, steps := [], error := none },
    clock := clock + 1, store := [], logs := [], delays := [], calls := [] }

/-- No StepResult of the run carries the status skipped. -/
def NoSkipped (r : WorkflowRun) : Prop :=
  ∀ sr ∈ r.steps, sr.status ≠ StepStatus.skipped

instance (r : WorkflowRun) : Decidable (NoSkipped r) :=
  inferInstanceAs (Decidable (∀ sr ∈ r.steps, sr.status ≠ StepStatus.skipped))

/-- Whether every step of the run is completed. -/
def stepsAllCompleted (r : WorkflowRun) : Bool :=
  r.steps.all (fun sr => sr.status == StepStatus.completed)

section ResetLemmas

theorem resetFrom_length (k : Nat) (l : List WorkflowStepResult) :
    (resetFrom k l).length = l.length := by
  induction l generalizing k with
  | nil => rfl
  | cons x xs ih => simp [resetFrom, ih]

theorem resetFrom_getElem?_lt (k j : Nat) (l : List WorkflowStepResult) (h : j < k) :
    (resetFrom k l)[j]? = l[j]? := by
  induction l generalizing k j with
  | nil => rfl
  | cons x xs ih =>
    cases j with
    | zero =>
      have hk : ¬ k = 0 := by omega
      simp [resetFrom, hk]
    | succ m =>
      have : m < k - 1 := by omega
      simp [resetFrom, ih (k - 1) m this]

theorem resetFrom_getElem?_ge (k j : Nat) (l : List WorkflowStepResult) (h : k ≤ j) :
    (resetFrom k l)[j]? = (l[j]?).map clearStepResult := by
  induction l generalizing k j with
  | nil => rfl
  | cons x xs ih =>
    cases j with
    | zero =>
      have hk : k = 0 := by omega
      simp [resetFrom, hk]
    | succ m =>
      have : k - 1 ≤ m := by omega
      simp [resetFrom, ih (k - 1) m this]

end ResetLemmas

section ExecuteStepLemmas

/-- The StepResult written by a successful executeStep over the prior
record sr, at base clock c, with artifacts arts. -/
def completedResult (sr : WorkflowStepResult) (c : Nat) (arts : List String) :
    WorkflowStepResult :=
  { sr with
    status := StepStatus.completed
    startedAt := some c
    completedAt := some (c + 2)
    duration := some 2
    artifacts := some arts }

/-- The StepResult written by a failed executeStep over the prior record
sr, at base clock c, with error message e. -/
def failedResult (sr : WorkflowStepResult) (c : Nat) (e : String) :
    WorkflowStepResult :=
  { sr with
    status := StepStatus.failed
    startedAt := some c
    completedAt := some (c + 2)
    duration := some 2
    error := some e }

theorem executeStep_not_found (oracle : Oracle) (i : Nat) (s : EngineState)
    (hget : s.run.steps[i]? = none) :
    executeStep oracle i s = (.error ("Step " ++ toString i ++ " not found"), s) := by
  simp [executeStep, hget]

theorem executeStep_ok_proj (oracle : Oracle) (i : Nat) (s : EngineState)
    (sr : WorkflowStepResult) (arts : List String)
    (hget : s.run.steps[i]? = some sr)
    (hok : oracle s.calls sr.step.role = .ok arts) :
    (executeStep oracle i s).1 = .ok () ∧
    (executeStep oracle i s).2.run.steps =
      s.run.steps.set i (completedResult sr s.clock arts) ∧
    (executeStep oracle i s).2.run.status = s.run.status ∧
    (executeStep oracle i s).2.run.error = s.run.error ∧
    (executeStep oracle i s).2.calls = s.calls ++ [(i, sr.step.role)] ∧
    (executeStep oracle i s).2.delays = s.delays := by
  have h2 : s.clock + 3 - (s.clock + 1) = 2 := by omega
  simp [executeStep, hget, executeRole, hok, tick, logEv, saveMetadata,
    completedResult, List.set_set, h2]

theorem executeStep_error_proj (oracle : Oracle) (i : Nat) (s : EngineState)
    (sr : WorkflowStepResult) (e : String)
    (hget : s.run.steps[i]? = some sr)
    (herr : oracle s.calls sr.step.role = .error e) :
    (executeStep oracle i s).1 = .error e ∧
    (executeStep oracle i s).2.run.steps =
      s.run.steps.set i (failedResult sr s.clock e) ∧
    (executeStep oracle i s).2.run.status = s.run.status ∧
    (executeStep oracle i s).2.run.error = s.run.error ∧
    (executeStep oracle i s).2.calls = s.calls ++ [(i, sr.step.role)] ∧
    (executeStep oracle i s).2.delays = s.delays := by
  have h2 : s.clock + 3 - (s.clock + 1) = 2 := by omega
  simp [executeStep, hget, executeRole, herr, tick, logEv, saveMetadata,
    failedResult, List.set_set, h2]

/-- Generic projections of one executeStep call, with no assumption on
the oracle outcome: length and off-index steps are preserved, run.status,
run.error and the delay list are untouched, and at most one dispatcher
call (by this step index) is appended. -/
theorem executeStep_proj (oracle : Oracle) (i : Nat) (s : EngineState) :
    (executeStep oracle i s).2.run.steps.length = s.run.steps.length ∧
    (∀ j, j ≠ i → (executeStep oracle i s).2.run.steps[j]? = s.run.steps[j]?) ∧
    (executeStep oracle i s).2.run.status = s.run.status ∧
    (executeStep oracle i s).2.run.error = s.run.error ∧
    (executeStep oracle i s).2.delays = s.delays ∧
    (∃ cl, (executeStep oracle i s).2.calls = s.calls ++ cl ∧
      cl.length ≤ 1 ∧ ∀ p ∈ cl, p.1 = i) := by
  cases hget : s.run.steps[i]? with
  | none =>
    rw [executeStep_not_found oracle i s hget]
    exact ⟨rfl, fun j _ => rfl, rfl, rfl, rfl, [], by simp⟩
  | some sr =>
    cases hok : oracle s.calls sr.step.role with
    | ok arts =>
      obtain ⟨-, h2, h3, h4, h5, h6⟩ := executeStep_ok_proj oracle i s sr arts hget hok
      refine ⟨?_, ?_, h3, h4, h6, ⟨[(i, sr.step.role)], h5, by simp, by simp⟩⟩
      · rw [h2]; simp
      · intro j hj
        rw [h2, List.getElem?_set_ne (by omega)]
    | error e =>
      obtain ⟨-, h2, h3, h4, h5, h6⟩ := executeStep_error_proj oracle i s sr e hget hok
      refine ⟨?_, ?_, h3, h4, h6, ⟨[(i, sr.step.role)], h5, by simp, by simp⟩⟩
      · rw [h2]; simp
      · intro j hj
        rw [h2, List.getElem?_set_ne (by omega)]

/-- A successful executeStep leaves the target StepResult completed. -/
theorem executeStep_ok_completed (oracle : Oracle) (i : Nat) (s : EngineState)
    (u : Unit) (h : (executeStep oracle i s).1 = .ok u) :
    ∃ sr, (executeStep oracle i s).2.run.steps[i]? = some sr ∧
      sr.status = StepStatus.completed := by
  cases hget : s.run.steps[i]? with
  | none => rw [executeStep_not_found oracle i s hget] at h; exact absurd h (by simp)
  | some sr =>
    have hlt : i < s.run.steps.length := (List.getElem?_eq_some.mp hget).1
    cases hok : oracle s.calls sr.step.role with
    | ok arts =>
      obtain ⟨-, h2, -, -, -, -⟩ := executeStep_ok_proj oracle i s sr arts hget hok
      refine ⟨completedResult sr s.clock arts, ?_, rfl⟩
      rw [h2]
      simp [hlt]
    | error e =>
      obtain ⟨h1, -, -, -, -, -⟩ := executeStep_error_proj oracle i s sr e hget hok
      rw [h1] at h
      exact absurd h (by simp)

end ExecuteStepLemmas

section RetryLoopLemmas

/-- The state the retry loop carries into the next attempt: the warning
log entry followed by the recorded 1000 * attempts back-off wait. -/
def betweenAttempts (a : Nat) (s : EngineState) : EngineState :=
  let s'' := logEv .warn "Step failed, retrying" s
  { s'' with delays := s''.delays ++ [1000 * (a + 1)] }

theorem retryLoop_zero (oracle : Oracle) (i a : Nat) (s : EngineState) :
    retryLoop oracle i 0 a s = (.ok (), s) := rfl

theorem retryLoop_succ (oracle : Oracle) (i n a : Nat) (s : EngineState) :
    retryLoop oracle i (n + 1) a s =
      match executeStep oracle i s with
      | (.ok _, s') => (.ok (), s')
      | (.error e, s') =>
        match n with
        | 0 => (.error e, s')
        | fuel' + 1 => retryLoop oracle i (fuel' + 1) (a + 1) (betweenAttempts a s') := by
  rw [retryLoop]
  rfl

/-- Generic projections of the retry loop: step list length and
off-index entries are preserved, at most fuel dispatcher calls are
appended (all recorded at this step index), and the recorded waits are
exactly the linear back-off prefix 1000*(a+1), 1000*(a+2), ... -/
theorem retryLoop_proj (oracle : Oracle) (i : Nat) :
    ∀ fuel a s,
    (retryLoop oracle i fuel a s).2.run.steps.length = s.run.steps.length ∧
    (∀ j, j ≠ i → (retryLoop oracle i fuel a s).2.run.steps[j]? = s.run.steps[j]?) ∧
    (∃ cl, (retryLoop oracle i fuel a s).2.calls = s.calls ++ cl ∧
      cl.length ≤ fuel ∧ ∀ p ∈ cl, p.1 = i) ∧
    (∃ m, (m = 0 ∨ m + 1 ≤ fuel) ∧
      (retryLoop oracle i fuel a s).2.delays =
        s.delays ++ (List.range' (a + 1) m).map (fun j => 1000 * j)) := by
  intro fuel
  induction fuel with
  | zero =>
    intro a s
    rw [retryLoop_zero]
    exact ⟨rfl, fun j _ => rfl, ⟨[], by simp, by simp, by simp⟩, ⟨0, by simp, by simp⟩⟩
  | succ n ih =>
    intro a s
    rcases hE : executeStep oracle i s with ⟨res, s'⟩
    obtain ⟨e1, e2, -, -, e6, ⟨cl₀, e3, e4, e5⟩⟩ := executeStep_proj oracle i s
    rw [hE] at e1 e2 e3 e6
    dsimp only at e1 e2 e3 e6
    cases res with
    | ok u =>
      rw [retryLoop_succ, hE]
      exact ⟨e1, e2, ⟨cl₀, e3, by omega, e5⟩, ⟨0, by simp, by simp [e6]⟩⟩
    | error e =>
      cases n with
      | zero =>
        rw [retryLoop_succ, hE]
        exact ⟨e1, e2, ⟨cl₀, e3, by omega, e5⟩, ⟨0, by simp, by simp [e6]⟩⟩
      | succ n' =>
        rw [retryLoop_succ, hE]
        obtain ⟨f1, f2, ⟨cl₁, f3, f4, f5⟩, ⟨m', f6, f7⟩⟩ := ih (a + 1) (betweenAttempts a s')
        have hsteps : (betweenAttempts a s').run.steps = s'.run.steps := rfl
        have hcalls : (betweenAttempts a s').calls = s'.calls := rfl
        have hdelays : (betweenAttempts a s').delays = s'.delays ++ [1000 * (a + 1)] := rfl
        refine ⟨?_, ?_, ⟨cl₀ ++ cl₁, ?_, ?_, ?_⟩, ⟨m' + 1, ?_, ?_⟩⟩
        · rw [f1, hsteps, e1]
        · intro j hj
          rw [f2 j hj, hsteps, e2 j hj]
        · rw [f3, hcalls, e3, List.append_assoc]
        · simp only [List.length_append]; omega
        · intro p hp
          rcases List.mem_append.mp hp with h | h
          · exact e5 p h
          · exact f5 p h
        · omega
        · rw [f7, hdelays, e6, List.range'_succ _ _ 1, List.map_cons, List.append_assoc]
          rfl

/-- When the retry loop reports success (with at least one iteration
allowed), the target step has just been driven to completed. -/
theorem retryLoop_ok_completed (oracle : Oracle) (i : Nat) :
    ∀ fuel a s u, 1 ≤ fuel → (retryLoop oracle i fuel a s).1 = .ok u →
    ∃ sr, (retryLoop oracle i fuel a s).2.run.steps[i]? = some sr ∧
      sr.status = StepStatus.completed := by
  intro fuel
  induction fuel with
  | zero => intro a s u h; omega
  | succ n ih =>
    intro a s u _ hok
    rcases hE : executeStep oracle i s with ⟨res, s'⟩
    cases res with
    | ok v =>
      rw [retryLoop_succ, hE] at hok ⊢
      obtain ⟨sr, h1, h2⟩ := executeStep_ok_completed oracle i s v (by rw [hE])
      rw [hE] at h1
      exact ⟨sr, h1, h2⟩
    | error e =>
      cases n with
      | zero =>
        rw [retryLoop_succ, hE] at hok
        exact absurd hok (by simp)
      | succ n' =>
        rw [retryLoop_succ, hE] at hok ⊢
        exact ih (a + 1) _ u (by omega) hok

/-- When the dispatcher for the target step's role fails on every
invocation, the retry loop performs exactly fuel attempts (all recorded
at this step index), propagates the failure message, and leaves the
target step failed with that message, every other step untouched. -/
theorem retryLoop_always_fail (oracle : Oracle) (i : Nat) (role : RoleName)
    (emsg : String) (hfail : ∀ hist, oracle hist role = .error emsg) :
    ∀ fuel a s sr, s.run.steps[i]? = some sr → sr.step.role = role → 1 ≤ fuel →
    (retryLoop oracle i fuel a s).1 = .error emsg ∧
    (∃ sr', (retryLoop oracle i fuel a s).2.run.steps[i]? = some sr' ∧
      sr'.status = StepStatus.failed ∧ sr'.error = some emsg) ∧
    (∀ j, j ≠ i → (retryLoop oracle i fuel a s).2.run.steps[j]? = s.run.steps[j]?) ∧
    (retryLoop oracle i fuel a s).2.run.steps.length = s.run.steps.length ∧
    (retryLoop oracle i fuel a s).2.calls = s.calls ++ List.replicate fuel (i, role) := by
  intro fuel
  induction fuel with
  | zero => intro a s sr _ _ h; omega
  | succ n ih =>
    intro a s sr hget hrole _
    have herr : oracle s.calls sr.step.role = .error emsg := by rw [hrole]; exact hfail _
    have hlt : i < s.run.steps.length := (List.getElem?_eq_some.mp hget).1
    rcases hE : executeStep oracle i s with ⟨res, s'⟩
    obtain ⟨h1, h2, h3, h4, h5, h6⟩ := executeStep_error_proj oracle i s sr emsg hget herr
    rw [hE] at h1 h2 h5 h6
    have hres : res = Except.error emsg := by simpa using h1
    subst hres
    have hsteps' : s'.run.steps[i]? = some (failedResult sr s.clock emsg) := by
      rw [h2]; simp [hlt]
    have hothers : ∀ j, j ≠ i → s'.run.steps[j]? = s.run.steps[j]? := by
      intro j hj
      rw [h2, List.getElem?_set_ne (by omega)]
    have hlen' : s'.run.steps.length = s.run.steps.length := by rw [h2]; simp
    have hcalls' : s'.calls = s.calls ++ [(i, role)] := by rw [h5, hrole]
    cases n with
    | zero =>
      rw [retryLoop_succ, hE]
      exact ⟨rfl, ⟨failedResult sr s.clock emsg, hsteps', rfl, rfl⟩,
        hothers, hlen', by rw [hcalls']; rfl⟩
    | succ n' =>
      rw [retryLoop_succ, hE]
      have hget3 : (betweenAttempts a s').run.steps[i]? =
          some (failedResult sr s.clock emsg) := hsteps'
      have hrole3 : (failedResult sr s.clock emsg).step.role = role := hrole
      obtain ⟨g1, g2, g3, g4, g5⟩ :=
        ih (a + 1) (betweenAttempts a s') (failedResult sr s.clock emsg) hget3 hrole3
          (by omega)
      refine ⟨g1, g2, ?_, ?_, ?_⟩
      · intro j hj
        rw [g3 j hj]
        exact hothers j hj
      · rw [g4]
        exact hlen'
      · rw [g5, show (betweenAttempts a s').calls = s'.calls from rfl, hcalls',
          List.append_assoc]
        rfl

end RetryLoopLemmas

section RunStepLemmas

theorem countP_replicate {α : Type _} (n : Nat) (a : α) (p : α → Bool) :
    (List.replicate n a).countP p = if p a then n else 0 := by
  induction n with
  | zero => simp
  | succ m ih =>
    rw [List.replicate_succ, List.countP_cons]
    by_cases h : p a <;> simp [h, ih]

/-- Generic projections of one Retry-Controller step: length and
off-index steps preserved, at most retries + 1 dispatcher calls appended
(all at this index), and the recorded waits are the linear back-off
sequence 1000*1, ..., 1000*m for some m ≤ retries. -/
theorem runStepWithRetries_proj (oracle : Oracle) (i retries : Nat) (s : EngineState) :
    (runStepWithRetries oracle i retries s).2.run.steps.length = s.run.steps.length ∧
    (∀ j, j ≠ i →
      (runStepWithRetries oracle i retries s).2.run.steps[j]? = s.run.steps[j]?) ∧
    (∃ cl, (runStepWithRetries oracle i retries s).2.calls = s.calls ++ cl ∧
      cl.length ≤ retries + 1 ∧ ∀ p ∈ cl, p.1 = i) ∧
    (∃ m, m ≤ retries ∧
      (runStepWithRetries oracle i retries s).2.delays =
        s.delays ++ (List.range' 1 m).map (fun j => 1000 * j)) := by
  obtain ⟨e1, e2, ⟨cl, e3, e4, e5⟩, ⟨m, e6, e7⟩⟩ :=
    retryLoop_proj oracle i (retries + 1) 0 s
  rcases hR : retryLoop oracle i (retries + 1) 0 s with ⟨res, s'⟩
  rw [hR] at e1 e2 e3 e7
  dsimp only at e1 e2 e3 e7
  cases res with
  | ok u =>
    simp only [runStepWithRetries, hR]
    exact ⟨e1, e2, ⟨cl, e3, e4, e5⟩, ⟨m, by omega, e7⟩⟩
  | error e =>
    simp only [runStepWithRetries, hR, tick, saveMetadata]
    exact ⟨e1, e2, ⟨cl, e3, e4, e5⟩, ⟨m, by omega, e7⟩⟩

/-- A successful Retry-Controller step leaves its step completed. -/
theorem runStepWithRetries_ok_completed (oracle : Oracle) (i retries : Nat)
    (s : EngineState) (u : Unit)
    (h : (runStepWithRetries oracle i retries s).1 = .ok u) :
    ∃ sr, (runStepWithRetries oracle i retries s).2.run.steps[i]? = some sr ∧
      sr.status = StepStatus.completed := by
  rcases hR : retryLoop oracle i (retries + 1) 0 s with ⟨res, s'⟩
  cases res with
  | ok v =>
    simp only [runStepWithRetries, hR]
    obtain ⟨sr, h1, h2⟩ := retryLoop_ok_completed oracle i (retries + 1) 0 s v
      (by omega) (by rw [hR])
    rw [hR] at h1
    exact ⟨sr, h1, h2⟩
  | error e =>
    simp only [runStepWithRetries, hR] at h
    exact absurd h (by simp)

/-- If the first executeStep succeeds the retry loop stops at once. -/
theorem retryLoop_ok_first (oracle : Oracle) (i fuel a : Nat) (s s' : EngineState)
    (u : Unit) (h : executeStep oracle i s = (.ok u, s')) :
    retryLoop oracle i (fuel + 1) a s = (.ok (), s') := by
  rw [retryLoop_succ, h]

/-- If the first executeStep succeeds, the Retry-Controller step
succeeds with that very state. -/
theorem runStepWithRetries_ok_first (oracle : Oracle) (i retries : Nat)
    (s s' : EngineState) (u : Unit) (h : executeStep oracle i s = (.ok u, s')) :
    runStepWithRetries oracle i retries s = (.ok (), s') := by
  simp only [runStepWithRetries, retryLoop_ok_first oracle i retries 0 s s' u h]

/-- An always-failing dispatcher drives the Retry-Controller step to
exactly retries + 1 recorded attempts, a failed step carrying the
message, a failed run carrying the message, and a propagated error. -/
theorem runStepWithRetries_always_fail (oracle : Oracle) (i retries : Nat)
    (role : RoleName) (emsg : String)
    (hfail : ∀ hist, oracle hist role = .error emsg)
    (s : EngineState) (sr : WorkflowStepResult)
    (hget : s.run.steps[i]? = some sr) (hrole : sr.step.role = role) :
    (runStepWithRetries oracle i retries s).1 = .error emsg ∧
    (∃ sr', (runStepWithRetries oracle i retries s).2.run.steps[i]? = some sr' ∧
      sr'.status = StepStatus.failed ∧ sr'.error = some emsg) ∧
    (∀ j, j ≠ i →
      (runStepWithRetries oracle i retries s).2.run.steps[j]? = s.run.steps[j]?) ∧
    (runStepWithRetries oracle i retries s).2.run.steps.length = s.run.steps.length ∧
    (runStepWithRetries oracle i retries s).2.calls =
      s.calls ++ List.replicate (retries + 1) (i, role) ∧
    (runStepWithRetries oracle i retries s).2.run.status = RunStatus.failed ∧
    (runStepWithRetries oracle i retries s).2.run.error = some emsg := by
  obtain ⟨h1, ⟨sr', h2, h3, h4⟩, h5, h6, h7⟩ :=
    retryLoop_always_fail oracle i role emsg hfail (retries + 1) 0 s sr hget hrole
      (by omega)
  rcases hR : retryLoop oracle i (retries + 1) 0 s with ⟨res, s'⟩
  rw [hR] at h1 h2 h5 h6 h7
  dsimp only at h1 h2 h5 h6 h7
  subst h1
  simp only [runStepWithRetries, hR, tick, saveMetadata]
  exact ⟨trivial, ⟨sr', h2, h3, h4⟩, h5, h6, h7, trivial, trivial⟩

end RunStepLemmas

section StepsLoopLemmas

theorem stepsLoop_zero (oracle : Oracle) (retries i : Nat) (s : EngineState) :
    stepsLoop oracle retries 0 i s = (.ok (), s) := rfl

theorem stepsLoop_succ (oracle : Oracle) (retries rem i : Nat) (s : EngineState) :
    stepsLoop oracle retries (rem + 1) i s =
      match runStepWithRetries oracle i retries s with
      | (.ok _, s') => stepsLoop oracle retries rem (i + 1) s'
      | (.error e, s') => (.error e, s') := by
  rw [stepsLoop]

/-- Generic projections of the steps loop from index i: step-list length
and entries below i are preserved, and the appended dispatcher calls are
all recorded at indices ≥ i, with at most retries + 1 of them at any
single index. -/
theorem stepsLoop_proj (oracle : Oracle) (retries : Nat) :
    ∀ rem i s,
    (stepsLoop oracle retries rem i s).2.run.steps.length = s.run.steps.length ∧
    (∀ j, j < i → (stepsLoop oracle retries rem i s).2.run.steps[j]? = s.run.steps[j]?) ∧
    (∃ cl, (stepsLoop oracle retries rem i s).2.calls = s.calls ++ cl ∧
      (∀ p ∈ cl, i ≤ p.1) ∧
      ∀ q, cl.countP (fun p => p.1 == q) ≤ retries + 1) := by
  intro rem
  induction rem with
  | zero =>
    intro i s
    rw [stepsLoop_zero]
    exact ⟨rfl, fun j _ => rfl, ⟨[], by simp, by simp, by simp⟩⟩
  | succ n ih =>
    intro i s
    rcases hR : runStepWithRetries oracle i retries s with ⟨res, s'⟩
    obtain ⟨e1, e2, ⟨cl₀, e3, e4, e5⟩, -⟩ := runStepWithRetries_proj oracle i retries s
    rw [hR] at e1 e2 e3
    dsimp only at e1 e2 e3
    have hcnt : ∀ q, cl₀.countP (fun p => p.1 == q) ≤ retries + 1 := fun q =>
      le_trans (List.countP_le_length _) e4
    cases res with
    | ok u =>
      rw [stepsLoop_succ, hR]
      obtain ⟨f1, f2, ⟨cl₁, f3, f4, f5⟩⟩ := ih (i + 1) s'
      refine ⟨by rw [f1, e1], ?_, ⟨cl₀ ++ cl₁, ?_, ?_, ?_⟩⟩
      · intro j hj
        rw [f2 j (by omega), e2 j (by omega)]
      · rw [f3, e3, List.append_assoc]
      · intro p hp
        rcases List.mem_append.mp hp with h | h
        · exact le_of_eq (e5 p h).symm
        · exact le_trans (by omega) (f4 p h)
      · intro q
        rw [List.countP_append]
        by_cases hqi : q = i
        · have hz : cl₁.countP (fun p => p.1 == q) = 0 := by
            rw [List.countP_eq_zero]
            intro p hp
            have := f4 p hp
            simp only [beq_iff_eq]
            omega
          rw [hz]
          have hc := hcnt q
          omega
        · have hz : cl₀.countP (fun p => p.1 == q) = 0 := by
            rw [List.countP_eq_zero]
            intro p hp
            have := e5 p hp
            simp only [beq_iff_eq]
            omega
          rw [hz]
          have := f5 q
          omega
    | error e =>
      rw [stepsLoop_succ, hR]
      exact ⟨e1, fun j hj => e2 j (by omega), ⟨cl₀, e3,
        fun p hp => le_of_eq (e5 p hp).symm, hcnt⟩⟩

/-- A successful steps loop over indices i, ..., i + rem - 1 leaves every
one of those steps completed. -/
theorem stepsLoop_ok_completed (oracle : Oracle) (retries : Nat) :
    ∀ rem i s u, (stepsLoop oracle retries rem i s).1 = .ok u →
    ∀ j, i ≤ j → j < i + rem →
    ∃ sr, (stepsLoop oracle retries rem i s).2.run.steps[j]? = some sr ∧
      sr.status = StepStatus.completed := by
  intro rem
  induction rem with
  | zero => intro i s u _ j h1 h2; omega
  | succ n ih =>
    intro i s u hok j h1 h2
    rcases hR : runStepWithRetries oracle i retries s with ⟨res, s'⟩
    cases res with
    | ok v =>
      rw [stepsLoop_succ, hR] at hok ⊢
      rcases Nat.eq_or_lt_of_le h1 with he | hlt
      · subst he
        obtain ⟨sr, g1, g2⟩ := runStepWithRetries_ok_completed oracle i retries s v
          (by rw [hR])
        rw [hR] at g1
        dsimp only at g1
        obtain ⟨-, f2, -⟩ := stepsLoop_proj oracle retries n (i + 1) s'
        exact ⟨sr, by rw [f2 i (by omega)]; exact g1, g2⟩
      · exact ih (i + 1) s' u hok j (by omega) (by omega)
    | error e =>
      rw [stepsLoop_succ, hR] at hok
      exact absurd hok (by simp)

/-- The steps loop under a dispatcher that always fails for the role of
step k but always succeeds for the roles of the steps before k: steps
i..k-1 are driven to completed, step k to failed with exactly
retries + 1 recorded attempts and the failure message, every other step
is untouched, the run is marked failed with the message, and the error
propagates. -/
theorem stepsLoop_fail_at (oracle : Oracle) (retries : Nat) (role : RoleName)
    (emsg : String) (hfail : ∀ hist, oracle hist role = .error emsg) :
    ∀ rem i s k, i ≤ k → k < i + rem →
    (∃ srk, s.run.steps[k]? = some srk ∧ srk.step.role = role) →
    (∀ j sr, i ≤ j → j < k → s.run.steps[j]? = some sr →
      ∀ hist, ∃ a, oracle hist sr.step.role = .ok a) →
    (stepsLoop oracle retries rem i s).1 = .error emsg ∧
    (∀ j, j < i ∨ k < j →
      (stepsLoop oracle retries rem i s).2.run.steps[j]? = s.run.steps[j]?) ∧
    (∀ j, i ≤ j → j < k →
      ∃ sr, (stepsLoop oracle retries rem i s).2.run.steps[j]? = some sr ∧
        sr.status = StepStatus.completed) ∧
    (∃ sr', (stepsLoop oracle retries rem i s).2.run.steps[k]? = some sr' ∧
      sr'.status = StepStatus.failed ∧ sr'.error = some emsg) ∧
    (stepsLoop oracle retries rem i s).2.run.status = RunStatus.failed ∧
    (stepsLoop oracle retries rem i s).2.run.error = some emsg ∧
    (stepsLoop oracle retries rem i s).2.run.steps.length = s.run.steps.length ∧
    (stepsLoop oracle retries rem i s).2.calls.countP (fun p => p.1 == k) =
      s.calls.countP (fun p => p.1 == k) + (retries + 1) := by
  intro rem
  induction rem with
  | zero => intro i s k h1 h2; omega
  | succ n ih =>
    intro i s k h1 h2 hk hok
    obtain ⟨srk, hgetk, hrolek⟩ := hk
    by_cases hik : i = k
    · subst hik
      obtain ⟨g1, g2, g3, g4, g5, g6, g7⟩ :=
        runStepWithRetries_always_fail oracle i retries role emsg hfail s srk hgetk hrolek
      rcases hR : runStepWithRetries oracle i retries s with ⟨res, s'⟩
      rw [hR] at g1 g2 g3 g4 g5 g6 g7
      dsimp only at g1 g2 g3 g4 g5 g6 g7
      subst g1
      rw [stepsLoop_succ, hR]
      refine ⟨rfl, fun j hj => g3 j (by omega), fun j hj1 hj2 => absurd hj1 (by omega),
        g2, g6, g7, g4, ?_⟩
      rw [g5, List.countP_append, countP_replicate]
      simp
    · have hilt : i < k := by omega
      have hkl : k < s.run.steps.length := (List.getElem?_eq_some.mp hgetk).1
      have hil : i < s.run.steps.length := by omega
      have hgeti : s.run.steps[i]? = some s.run.steps[i] := by
        rw [List.getElem?_eq_getElem hil]
      obtain ⟨arts, hoka⟩ :=
        hok i s.run.steps[i] (le_refl i) hilt hgeti s.calls
      obtain ⟨e1, e2, e3, e4, e5, e6⟩ :=
        executeStep_ok_proj oracle i s s.run.steps[i] arts hgeti hoka
      rcases hE : executeStep oracle i s with ⟨res, s₁⟩
      rw [hE] at e1 e2 e5
      dsimp only at e1 e2 e5
      have hres : res = Except.ok () := by simpa using e1
      subst hres
      have hrun : runStepWithRetries oracle i retries s = (.ok (), s₁) :=
        runStepWithRetries_ok_first oracle i retries s s₁ () hE
      rw [stepsLoop_succ, hrun]
      have hsk : s₁.run.steps[k]? = some srk := by
        rw [e2, List.getElem?_set_ne (by omega), hgetk]
      have hok' : ∀ j sr, i + 1 ≤ j → j < k → s₁.run.steps[j]? = some sr →
          ∀ hist, ∃ a, oracle hist sr.step.role = .ok a := by
        intro j sr hj1 hj2 hget hist
        rw [e2, List.getElem?_set_ne (by omega)] at hget
        exact hok j sr (by omega) hj2 hget hist
      obtain ⟨f1, f2, f3, f4, f5, f6, f7, f8⟩ :=
        ih (i + 1) s₁ k (by omega) (by omega) ⟨srk, hsk, hrolek⟩ hok'
      have hset : ∀ j, j ≠ i → s₁.run.steps[j]? = s.run.steps[j]? := by
        intro j hj
        rw [e2, List.getElem?_set_ne (by omega)]
      refine ⟨f1, ?_, ?_, f4, f5, f6, ?_, ?_⟩
      · intro j hj
        rw [f2 j (by omega)]
        exact hset j (by omega)
      · intro j hj1 hj2
        rcases Nat.eq_or_lt_of_le hj1 with he | hlt
        · subst he
          refine ⟨completedResult s.run.steps[i] s.clock arts, ?_, rfl⟩
          rw [f2 i (by omega), e2, List.getElem?_set_self]
          simp [hil]
        · exact f3 j (by omega) hj2
      · rw [f7, e2]
        simp
      · rw [f8, e5, List.countP_append]
        have : (i == k) = false := by simp [hik]
        simp [List.countP_cons, this]

end StepsLoopLemmas

section WorkflowLemmas

/-- Generic projections of executeWorkflowSteps: steps below the resume
index are untouched, length is preserved, and each step index receives
at most retries + 1 dispatcher calls. -/
theorem executeWorkflowSteps_proj (oracle : Oracle) (config : List WorkflowStep)
    (opts : ExecOptions) (s : EngineState) :
    (executeWorkflowSteps oracle config opts s).2.run.steps.length = s.run.steps.length ∧
    (∀ j, j < opts.resumeFromStep.getD 0 →
      (executeWorkflowSteps oracle config opts s).2.run.steps[j]? = s.run.steps[j]?) ∧
    (∃ cl, (executeWorkflowSteps oracle config opts s).2.calls = s.calls ++ cl ∧
      (∀ p ∈ cl, opts.resumeFromStep.getD 0 ≤ p.1) ∧
      ∀ q, cl.countP (fun p => p.1 == q) ≤ opts.retries.getD 1 + 1) := by
  obtain ⟨e1, e2, ⟨cl, e3, e4, e5⟩⟩ := stepsLoop_proj oracle (opts.retries.getD 1)
    (config.length - opts.resumeFromStep.getD 0) (opts.resumeFromStep.getD 0) s
  rcases hL : stepsLoop oracle (opts.retries.getD 1)
      (config.length - opts.resumeFromStep.getD 0) (opts.resumeFromStep.getD 0) s
    with ⟨res, s'⟩
  rw [hL] at e1 e2 e3
  dsimp only at e1 e2 e3
  cases res with
  | ok u =>
    simp only [executeWorkflowSteps, hL, tick, logEv, saveMetadata]
    exact ⟨e1, e2, ⟨cl, e3, e4, e5⟩⟩
  | error e =>
    simp only [executeWorkflowSteps, hL, tick, logEv, saveMetadata]
    exact ⟨e1, e2, ⟨cl, e3, e4, e5⟩⟩

/-- When executeWorkflowSteps returns successfully it has just set the
run status to completed, and every step from the resume index up to the
end of the config is completed. -/
theorem executeWorkflowSteps_ok (oracle : Oracle) (config : List WorkflowStep)
    (opts : ExecOptions) (s : EngineState) (r : WorkflowRun)
    (h : (executeWorkflowSteps oracle config opts s).1 = .ok r) :
    (executeWorkflowSteps oracle config opts s).2.run.status = RunStatus.completed ∧
    (∀ j, opts.resumeFromStep.getD 0 ≤ j → j < config.length →
      ∃ sr, (executeWorkflowSteps oracle config opts s).2.run.steps[j]? = some sr ∧
        sr.status = StepStatus.completed) := by
  rcases hL : stepsLoop oracle (opts.retries.getD 1)
      (config.length - opts.resumeFromStep.getD 0) (opts.resumeFromStep.getD 0) s
    with ⟨res, s'⟩
  cases res with
  | ok u =>
    simp only [executeWorkflowSteps, hL, tick, logEv, saveMetadata]
    refine ⟨trivial, ?_⟩
    intro j hj1 hj2
    obtain ⟨sr, g1, g2⟩ := stepsLoop_ok_completed oracle (opts.retries.getD 1)
      (config.length - opts.resumeFromStep.getD 0) (opts.resumeFromStep.getD 0) s u
      (by rw [hL]) j hj1 (by omega)
    rw [hL] at g1
    exact ⟨sr, g1, g2⟩
  | error e =>
    simp only [executeWorkflowSteps, hL, tick, logEv, saveMetadata] at h
    exact absurd h (by simp)

end WorkflowLemmas

section RoundTripLemmas

theorem decodeRole_encodeRole (r : RoleName) : decodeRole (encodeRole r) = some r := by
  cases r <;> rfl

theorem decodeStepStatus_encode (st : StepStatus) :
    decodeStepStatus (encodeStepStatus st) = some st := by
  cases st <;> rfl

theorem decodeRunStatus_encode (st : RunStatus) :
    decodeRunStatus (encodeRunStatus st) = some st := by
  cases st <;> rfl

theorem decodeList_roundtrip {α : Type _} (dec : Json → Option α) (enc : α → Json)
    (h : ∀ a, dec (enc a) = some a) (xs : List α) :
    decodeList dec (xs.map enc) = some xs := by
  induction xs with
  | nil => rfl
  | cons x rest ih => simp [decodeList, h, ih]

theorem decodeStrList_roundtrip (xs : List String) :
    decodeStrList (Json.arr (xs.map Json.str)) = some xs := by
  simp [decodeStrList]
  exact decodeList_roundtrip decodeString Json.str (fun a => rfl) xs

theorem decodeWorkflowStep_roundtrip (st : WorkflowStep) :
    decodeWorkflowStep (encodeWorkflowStep st) = some st := by
  rcases st with ⟨r, n, d⟩
  simp [decodeWorkflowStep, encodeWorkflowStep, lookupField, List.find?,
    decodeRole_encodeRole, decodeString]

theorem decodeStepResult_roundtrip (r : WorkflowStepResult) :
    decodeStepResult (encodeStepResult r) = some r := by
  rcases r with ⟨st, stat, o1, o2, o3, o4, o5, o6⟩
  cases o1 <;> cases o2 <;> cases o3 <;> cases o4 <;> cases o5 <;> cases o6 <;>
    simp [decodeStepResult, encodeStepResult, optField, lookupField, List.find?,
      decodeOptField, decodeWorkflowStep_roundtrip, decodeStepStatus_encode,
      decodeNat, decodeString, decodeStrList_roundtrip]

theorem decodeRun_encodeRun (r : WorkflowRun) : decodeRun (encodeRun r) = some r := by
  rcases r with ⟨i, w, sa, ca, st, cs, ss, er⟩
  have hsteps : decodeList decodeStepResult (ss.map encodeStepResult) = some ss :=
    decodeList_roundtrip decodeStepResult encodeStepResult decodeStepResult_roundtrip ss
  cases ca <;> cases cs <;> cases er <;>
    simp [decodeRun, encodeRun, optField, lookupField, List.find?, decodeOptField,
      decodeRunStatus_encode, decodeNat, decodeString, hsteps]

end RoundTripLemmas

section NoSkippedLemmas

theorem noSkipped_initRun (config : List WorkflowStep) (s : EngineState) :
    NoSkipped (initRun config s).run := by
  intro sr hmem
  simp only [initRun, logEv, saveMetadata] at hmem
  simp only [List.mem_map] at hmem
  obtain ⟨st, -, he⟩ := hmem
  rw [show sr = freshStepResult st from he.symm]
  simp [freshStepResult]

theorem noSkipped_executeStep (oracle : Oracle) (i : Nat) (s : EngineState)
    (h : NoSkipped s.run) : NoSkipped (executeStep oracle i s).2.run := by
  cases hget : s.run.steps[i]? with
  | none => rw [executeStep_not_found oracle i s hget]; exact h
  | some sr =>
    cases hok : oracle s.calls sr.step.role with
    | ok arts =>
      obtain ⟨-, h2, -, -, -, -⟩ := executeStep_ok_proj oracle i s sr arts hget hok
      intro x hmem
      rw [h2] at hmem
      rcases List.mem_or_eq_of_mem_set hmem with hm | he
      · exact h x hm
      · rw [he]; simp [completedResult]
    | error e =>
      obtain ⟨-, h2, -, -, -, -⟩ := executeStep_error_proj oracle i s sr e hget hok
      intro x hmem
      rw [h2] at hmem
      rcases List.mem_or_eq_of_mem_set hmem with hm | he
      · exact h x hm
      · rw [he]; simp [failedResult]

theorem noSkipped_retryLoop (oracle : Oracle) (i : Nat) :
    ∀ fuel a s, NoSkipped s.run → NoSkipped (retryLoop oracle i fuel a s).2.run := by
  intro fuel
  induction fuel with
  | zero => intro a s h; rw [retryLoop_zero]; exact h
  | succ n ih =>
    intro a s h
    have hE' := noSkipped_executeStep oracle i s h
    rcases hE : executeStep oracle i s with ⟨res, s'⟩
    rw [hE] at hE'
    cases res with
    | ok u => rw [retryLoop_succ, hE]; exact hE'
    | error e =>
      cases n with
      | zero => rw [retryLoop_succ, hE]; exact hE'
      | succ n' =>
        rw [retryLoop_succ, hE]
        exact ih (a + 1) (betweenAttempts a s') hE'

theorem noSkipped_runStepWithRetries (oracle : Oracle) (i retries : Nat)
    (s : EngineState) (h : NoSkipped s.run) :
    NoSkipped (runStepWithRetries oracle i retries s).2.run := by
  have hR' := noSkipped_retryLoop oracle i (retries + 1) 0 s h
  rcases hR : retryLoop oracle i (retries + 1) 0 s with ⟨res, s'⟩
  rw [hR] at hR'
  cases res with
  | ok u => simp only [runStepWithRetries, hR]; exact hR'
  | error e => simp only [runStepWithRetries, hR, tick, saveMetadata]; exact hR'

theorem noSkipped_stepsLoop (oracle : Oracle) (retries : Nat) :
    ∀ rem i s, NoSkipped s.run → NoSkipped (stepsLoop oracle retries rem i s).2.run := by
  intro rem
  induction rem with
  | zero => intro i s h; rw [stepsLoop_zero]; exact h
  | succ n ih =>
    intro i s h
    have hR' := noSkipped_runStepWithRetries oracle i retries s h
    rcases hR : runStepWithRetries oracle i retries s with ⟨res, s'⟩
    rw [hR] at hR'
    cases res with
    | ok u => rw [stepsLoop_succ, hR]; exact ih (i + 1) s' hR'
    | error e => rw [stepsLoop_succ, hR]; exact hR'

theorem noSkipped_executeWorkflowSteps (oracle : Oracle) (config : List WorkflowStep)
    (opts : ExecOptions) (s : EngineState) (h : NoSkipped s.run) :
    NoSkipped (executeWorkflowSteps oracle config opts s).2.run := by
  have hL' := noSkipped_stepsLoop oracle (opts.retries.getD 1)
    (config.length - opts.resumeFromStep.getD 0) (opts.resumeFromStep.getD 0) s h
  rcases hL : stepsLoop oracle (opts.retries.getD 1)
      (config.length - opts.resumeFromStep.getD 0) (opts.resumeFromStep.getD 0) s
    with ⟨res, s'⟩
  rw [hL] at hL'
  cases res with
  | ok u => simp only [executeWorkflowSteps, hL, tick, logEv, saveMetadata]; exact hL'
  | error e => simp only [executeWorkflowSteps, hL, tick, logEv, saveMetadata]; exact hL'

theorem noSkipped_executeWorkflow (oracle : Oracle) (config : List WorkflowStep)
    (opts : ExecOptions) (s : EngineState) :
    NoSkipped (executeWorkflow oracle config opts s).2.run :=
  noSkipped_executeWorkflowSteps oracle config opts (initRun config s)
    (noSkipped_initRun config s)

theorem noSkipped_resetFrom (k : Nat) (l : List WorkflowStepResult)
    (h : ∀ sr ∈ l, sr.status ≠ StepStatus.skipped) :
    ∀ sr ∈ resetFrom k l, sr.status ≠ StepStatus.skipped := by
  induction l generalizing k with
  | nil => intro sr hmem; simp [resetFrom] at hmem
  | cons x xs ih =>
    intro sr hmem
    simp only [resetFrom, List.mem_cons] at hmem
    rcases hmem with he | hm
    · by_cases hk : k = 0
      · rw [he, hk]; simp [clearStepResult]
      · rw [he]
        simp only [hk, if_false]
        exact h x (by simp)
    · exact ih (k - 1) (fun y hy => h y (by simp [hy])) sr hm

theorem noSkipped_resume (oracle : Oracle) (s : EngineState) (h : NoSkipped s.run) :
    NoSkipped (resume oracle s).2.run := by
  cases hF : s.run.steps.findIdx?
      (fun sr => sr.status == StepStatus.pending || sr.status == StepStatus.failed) with
  | none => simp only [resume, hF]; exact h
  | some k =>
    simp only [resume, hF]
    exact noSkipped_executeWorkflow oracle _ _ _

theorem noSkipped_retryFromStep (oracle : Oracle) (idx : Int) (s : EngineState)
    (h : NoSkipped s.run) : NoSkipped (retryFromStep oracle idx s).2.run := by
  by_cases hg : idx < 0 ∨ (s.run.steps.length : Int) ≤ idx
  · rw [retryFromStep, if_pos hg]; exact h
  · rw [retryFromStep, if_neg hg]
    exact noSkipped_executeWorkflowSteps oracle _ _ _
      (noSkipped_resetFrom idx.toNat s.run.steps h)

end NoSkippedLemmas

section Fixtures

/-- A dispatcher that always succeeds, for every role. -/
def allOkOracle : Oracle := fun _ _ => .ok ["artifact.txt"]

/-- A dispatcher whose builder always raises "boom". -/
def builderFailOracle : Oracle := fun _ r =>
  match r with
  | .builder => .error "boom"
  | _ => .ok ["artifact.txt"]

/-- A dispatcher whose planner always raises "boom". -/
def plannerFailOracle : Oracle := fun _ r =>
  match r with
  | .planner => .error "boom"
  | _ => .ok ["artifact.txt"]

/-- A dispatcher whose verifier always raises "lint failed" (the
concrete scenario of the spec). -/
def lintFailOracle : Oracle := fun _ r =>
  match r with
  | .verifier => .error "lint failed"
  | _ => .ok ["artifact.txt"]

/-- A two-step plan-then-build workflow definition. -/
def twoStepConfig : List WorkflowStep :=
  [{ role := .planner, name := "Plan Generation", description := "p" },
   { role := .builder, name := "Code Generation", description := "b" }]

/-- DEFAULT_WORKFLOWS.build: the four-step build workflow. -/
def buildWorkflow : List WorkflowStep :=
  [{ role := .planner, name := "Plan Generation",
     description := "Generate implementation plan from blueprint" },
   { role := .builder, name := "Code Generation",
     description := "Generate unified diffs and tests" },
   { role := .verifier, name := "Verification",
     description := "Apply patches and run verification gates" },
   { role := .reviewer, name := "Review Summary",
     description := "Generate PR summary and checklist" }]

/-- The persisted state after a two-step run whose builder always fails:
step 0 completed with its timestamps and artifacts recorded, step 1
failed, run failed. -/
def failedBuildState : EngineState :=
  (executeWorkflow builderFailOracle twoStepConfig
    { retries := none, resumeFromStep := none } (mkEngine "run-1" "build" 0)).2

/-- The persisted state after a two-step run whose planner always fails
with retries = 0: step 0 failed, step 1 still pending, run failed. -/
def failedPlannerState : EngineState :=
  (executeWorkflow plannerFailOracle twoStepConfig
    { retries := some 0, resumeFromStep := none } (mkEngine "run-2" "build" 0)).2

end Fixtures

section Claims

/-- C5: for every step and configured retry bound maxRetries, the retry
controller (runStepWithRetries, the while-loop of executeWorkflow /
executeWorkflowSteps) invokes the dispatcher at most maxRetries + 1
times for that step, and the waits it records before the retries are
exactly 1000 * 1, 1000 * 2, ..., 1000 * m for some m ≤ maxRetries -
linear backoff keyed by the attempt count with baseDelay = 1000 ms. -/
theorem C5_retry_bound_and_backoff (oracle : Oracle) (i maxRetries : Nat)
    (s : EngineState) :
    (∃ cl, (runStepWithRetries oracle i maxRetries s).2.calls = s.calls ++ cl ∧
      cl.length ≤ maxRetries + 1 ∧ ∀ p ∈ cl, p.1 = i) ∧
    (∃ m, m ≤ maxRetries ∧
      (runStepWithRetries oracle i maxRetries s).2.delays =
        s.delays ++ (List.range' 1 m).map (fun n => 1000 * n)) :=
  ⟨(runStepWithRetries_proj oracle i maxRetries s).2.2.1,
   (runStepWithRetries_proj oracle i maxRetries s).2.2.2⟩

/-- C7: retryFromStep with an out-of-range index (negative, or at least
the number of steps) fails with the Invalid-step-index error and returns
the engine state entirely unchanged: no run field is mutated and no
persistence write is performed. -/
theorem C7_invalid_index_no_mutation (oracle : Oracle) (stepIndex : Int)
    (s : EngineState)
    (h : stepIndex < 0 ∨ (s.run.steps.length : Int) ≤ stepIndex) :
    retryFromStep oracle stepIndex s =
      (.error ("Invalid step index: " ++ toString stepIndex ++
        ". Must be between 0 and " ++ toString ((s.run.steps.length : Int) - 1)), s) := by
  rw [retryFromStep, if_pos h]

/-- Witness for C7 at the concrete out-of-range index -1 on a persisted
two-step run. -/
theorem C7_witness :
    retryFromStep allOkOracle (-1) failedBuildState =
      (.error ("Invalid step index: " ++ toString (-1 : Int) ++
        ". Must be between 0 and " ++
        toString ((failedBuildState.run.steps.length : Int) - 1)),
       failedBuildState) :=
  C7_invalid_index_no_mutation allOkOracle (-1) failedBuildState (by decide)

/-- C8: persisting a run (saveMetadata) and loading it back by its id
(loadRun) yields a Run deep-equal to the original, for every run state -
the JSON encoding of the run document loses no information. -/
theorem C8_persist_load_roundtrip (s : EngineState) :
    loadRun (saveMetadata s).store s.run.id = some s.run := by
  simp only [loadRun, saveMetadata, lookupField, List.find?, beq_self_eq_true]
  simp [decodeRun_encodeRun]

/-- Per-index bound on the dispatcher calls one executeWorkflowSteps
invocation appends on top of an existing trace. -/
theorem executeWorkflowSteps_calls_le (oracle : Oracle)
    (config : List WorkflowStep) (opts : ExecOptions) (s : EngineState) (q : Nat) :
    (executeWorkflowSteps oracle config opts s).2.calls.countP (fun p => p.1 == q) ≤
      s.calls.countP (fun p => p.1 == q) + (opts.retries.getD 1 + 1) := by
  obtain ⟨-, -, ⟨cl, g1, -, g3⟩⟩ := executeWorkflowSteps_proj oracle config opts s
  rw [g1, List.countP_append]
  have hq := g3 q
  omega

/-- C9: executeWorkflowSteps and executeWorkflow behave with an absent
retries option exactly as with retries = 1, and resume and retryFromStep
(which never forward a retries option) therefore record at most 2
dispatcher calls for any single step index on top of those already in
the trace. -/
theorem C9_default_retry_bound :
    (∀ (oracle : Oracle) (config : List WorkflowStep) (rfs : Option Nat)
      (s : EngineState),
      executeWorkflowSteps oracle config { retries := none, resumeFromStep := rfs } s =
        executeWorkflowSteps oracle config { retries := some 1, resumeFromStep := rfs } s) ∧
    (∀ (oracle : Oracle) (config : List WorkflowStep) (rfs : Option Nat)
      (s : EngineState),
      executeWorkflow oracle config { retries := none, resumeFromStep := rfs } s =
        executeWorkflow oracle config { retries := some 1, resumeFromStep := rfs } s) ∧
    (∀ (oracle : Oracle) (s : EngineState) (q : Nat),
      ((resume oracle s).2.calls.countP (fun p => p.1 == q)) ≤
        s.calls.countP (fun p => p.1 == q) + 2) ∧
    (∀ (oracle : Oracle) (idx : Int) (s : EngineState) (q : Nat),
      ((retryFromStep oracle idx s).2.calls.countP (fun p => p.1 == q)) ≤
        s.calls.countP (fun p => p.1 == q) + 2) := by
  refine ⟨fun _ _ _ _ => rfl, fun _ _ _ _ => rfl, ?_, ?_⟩
  · intro oracle s q
    cases hF : s.run.steps.findIdx?
        (fun sr => sr.status == StepStatus.pending || sr.status == StepStatus.failed) with
    | none => simp [resume, hF]
    | some k =>
      simp only [resume, hF, executeWorkflow]
      exact executeWorkflowSteps_calls_le oracle _ _ _ q
  · intro oracle idx s q
    by_cases hg : idx < 0 ∨ (s.run.steps.length : Int) ≤ idx
    · rw [retryFromStep, if_pos hg]
      simp
    · rw [retryFromStep, if_neg hg]
      exact executeWorkflowSteps_calls_le oracle _ _ _ q

/-- C10: no engine operation ever writes the status skipped on a
StepResult: initialization writes pending, executeStep writes running
then completed or failed, the workflow loops only compose these, and
retryFromStep resets to pending - so a run without skipped steps never
acquires one through initRun, executeStep, executeWorkflow, resume or
retryFromStep. -/
theorem C10_no_skipped_status :
    (∀ (config : List WorkflowStep) (s : EngineState),
      NoSkipped (initRun config s).run) ∧
    (∀ (oracle : Oracle) (i : Nat) (s : EngineState), NoSkipped s.run →
      NoSkipped (executeStep oracle i s).2.run) ∧
    (∀ (oracle : Oracle) (config : List WorkflowStep) (opts : ExecOptions)
      (s : EngineState), NoSkipped (executeWorkflow oracle config opts s).2.run) ∧
    (∀ (oracle : Oracle) (s : EngineState), NoSkipped s.run →
      NoSkipped (resume oracle s).2.run) ∧
    (∀ (oracle : Oracle) (idx : Int) (s : EngineState), NoSkipped s.run →
      NoSkipped (retryFromStep oracle idx s).2.run) :=
  ⟨noSkipped_initRun, noSkipped_executeStep, noSkipped_executeWorkflow,
    noSkipped_resume, noSkipped_retryFromStep⟩

/-- Witness for C10: the concrete failed two-step run has no skipped
step, and neither does the state retryFromStep(0) produces from it. -/
theorem C10_witness :
    NoSkipped (retryFromStep allOkOracle 0 failedBuildState).2.run :=
  C10_no_skipped_status.2.2.2.2 allOkOracle 0 failedBuildState (by decide)

/-- C6: for a valid index k, retryFromStep resets every StepResult at
index ≥ k to pending with startedAt, completedAt, duration, error and
artifacts cleared, sets run.status to running clearing run.error and
run.completedAt, executes forward from index k (via
executeWorkflowSteps with resumeFromStep = k, without reinitializing),
and leaves every StepResult at index < k - its status, timestamps and
artifacts - exactly as recorded. -/
theorem C6_retryFromStep_resets_and_preserves (oracle : Oracle) (k : Nat)
    (s : EngineState) (hk : k < s.run.steps.length) :
    (∀ j sr, k ≤ j → (resetFrom k s.run.steps)[j]? = some sr →
      sr.status = StepStatus.pending ∧ sr.startedAt = none ∧ sr.completedAt = none ∧
      sr.duration = none ∧ sr.error = none ∧ sr.artifacts = none) ∧
    retryFromStep oracle (k : Int) s =
      executeWorkflowSteps oracle ((resetFrom k s.run.steps).map (fun sr => sr.step))
        { retries := none, resumeFromStep := some k }
        (logEv .info "Retrying workflow from step"
          { s with run := { s.run with
              steps := resetFrom k s.run.steps
              status := RunStatus.running
              error := none
              completedAt := none } }) ∧
    (∀ j, j < k →
      (retryFromStep oracle (k : Int) s).2.run.steps[j]? = s.run.steps[j]?) := by
  have hg : ¬((k : Int) < 0 ∨ (s.run.steps.length : Int) ≤ (k : Int)) := by
    push_neg
    constructor
    · exact Int.natCast_nonneg k
    · exact_mod_cast hk
  have heq : retryFromStep oracle (k : Int) s =
      executeWorkflowSteps oracle ((resetFrom k s.run.steps).map (fun sr => sr.step))
        { retries := none, resumeFromStep := some k }
        (logEv .info "Retrying workflow from step"
          { s with run := { s.run with
              steps := resetFrom k s.run.steps
              status := RunStatus.running
              error := none
              completedAt := none } }) := by
    rw [retryFromStep, if_neg hg]
    simp only [Int.toNat_natCast]
    rfl
  refine ⟨?_, heq, ?_⟩
  · intro j sr hj hget
    rw [resetFrom_getElem?_ge k j s.run.steps hj] at hget
    rcases Option.map_eq_some'.mp hget with ⟨x, -, he⟩
    rw [show sr = clearStepResult x from he.symm]
    simp [clearStepResult]
  · intro j hj
    rw [heq]
    obtain ⟨-, f2, -⟩ := executeWorkflowSteps_proj oracle
      ((resetFrom k s.run.steps).map (fun sr => sr.step))
      { retries := none, resumeFromStep := some k }
      (logEv .info "Retrying workflow from step"
        { s with run := { s.run with
            steps := resetFrom k s.run.steps
            status := RunStatus.running
            error := none
            completedAt := none } })
    rw [f2 j hj]
    exact resetFrom_getElem?_lt k j s.run.steps hj

/-- Witness for C6 at k = 1 on the persisted failed two-step run: step 0
is left byte-for-byte as recorded, and the reset entry at index 1 is
pending with all transient fields cleared. -/
theorem C6_witness :
    (retryFromStep allOkOracle ((1 : Nat) : Int) failedBuildState).2.run.steps[0]? =
      failedBuildState.run.steps[0]? :=
  (C6_retryFromStep_resets_and_preserves allOkOracle 1 failedBuildState
    (by decide)).2.2 0 (by decide)

/-- C2 counterexample: the claim "whenever an engine operation sets the
run's status to completed, every StepResult has status completed" is
false: on a persisted run whose step 0 exhausted its retries (failed)
and step 1 is pending, retryFromStep(1) with a succeeding dispatcher
ends with run.status = completed while steps[0] is still failed. -/
theorem C2_counterexample_completed_with_failed_step :
    (retryFromStep allOkOracle 1 failedPlannerState).2.run.status =
      RunStatus.completed ∧
    ((retryFromStep allOkOracle 1 failedPlannerState).2.run.steps[0]?).map
      (fun sr => sr.status) = some StepStatus.failed ∧
    stepsAllCompleted (retryFromStep allOkOracle 1 failedPlannerState).2.run = false := by
  refine ⟨by decide, by decide, by decide⟩

/-- C2 amended: whenever executeWorkflowSteps, executeWorkflow, resume
or retryFromStep sets the run's status to completed (returns
successfully), every StepResult from the index the operation started
executing at up to the end of the workflow has status completed.  The
original claim's quantification over all of run.steps is false for
indices below that start index (the counterexample), so the guarantee
is restricted to the executed range. -/
theorem C2_amended_completed_from_start_index :
    (∀ (oracle : Oracle) (config : List WorkflowStep) (opts : ExecOptions)
      (s : EngineState) (r : WorkflowRun),
      (executeWorkflowSteps oracle config opts s).1 = .ok r →
      (executeWorkflowSteps oracle config opts s).2.run.status = RunStatus.completed ∧
      ∀ j, opts.resumeFromStep.getD 0 ≤ j → j < config.length →
        ∃ sr, (executeWorkflowSteps oracle config opts s).2.run.steps[j]? = some sr ∧
          sr.status = StepStatus.completed) ∧
    (∀ (oracle : Oracle) (config : List WorkflowStep) (opts : ExecOptions)
      (s : EngineState) (r : WorkflowRun),
      (executeWorkflow oracle config opts s).1 = .ok r →
      (executeWorkflow oracle config opts s).2.run.status = RunStatus.completed ∧
      ∀ j, opts.resumeFromStep.getD 0 ≤ j → j < config.length →
        ∃ sr, (executeWorkflow oracle config opts s).2.run.steps[j]? = some sr ∧
          sr.status = StepStatus.completed) ∧
    (∀ (oracle : Oracle) (s : EngineState) (k : Nat) (r : WorkflowRun),
      s.run.steps.findIdx?
        (fun sr => sr.status == StepStatus.pending ||
          sr.status == StepStatus.failed) = some k →
      (resume oracle s).1 = .ok r →
      (resume oracle s).2.run.status = RunStatus.completed ∧
      ∀ j, k ≤ j → j < s.run.steps.length →
        ∃ sr, (resume oracle s).2.run.steps[j]? = some sr ∧
          sr.status = StepStatus.completed) ∧
    (∀ (oracle : Oracle) (k : Nat) (s : EngineState) (r : WorkflowRun),
      (retryFromStep oracle (k : Int) s).1 = .ok r →
      (retryFromStep oracle (k : Int) s).2.run.status = RunStatus.completed ∧
      ∀ j, k ≤ j → j < s.run.steps.length →
        ∃ sr, (retryFromStep oracle (k : Int) s).2.run.steps[j]? = some sr ∧
          sr.status = StepStatus.completed) := by
  refine ⟨fun oracle config opts s r h => executeWorkflowSteps_ok oracle config opts s r h,
    fun oracle config opts s r h =>
      executeWorkflowSteps_ok oracle config opts (initRun config s) r h,
    ?_, ?_⟩
  · intro oracle s k r hF hok
    simp only [resume, hF, executeWorkflow] at hok ⊢
    obtain ⟨h1, h2⟩ := executeWorkflowSteps_ok oracle _ _ _ r hok
    refine ⟨h1, ?_⟩
    intro j hj1 hj2
    exact h2 j (by simpa using hj1) (by simpa using hj2)
  · intro oracle k s r hok
    by_cases hg : (k : Int) < 0 ∨ (s.run.steps.length : Int) ≤ (k : Int)
    · rw [retryFromStep, if_pos hg] at hok
      exact absurd hok (by simp)
    · rw [retryFromStep, if_neg hg] at hok ⊢
      obtain ⟨h1, h2⟩ := executeWorkflowSteps_ok oracle _ _ _ r hok
      refine ⟨h1, ?_⟩
      intro j hj1 hj2
      refine h2 j ?_ ?_
      · simpa [Int.toNat_natCast] using hj1
      · simpa [logEv, resetFrom_length] using hj2

/-- Witness for the amended C2: a successful retryFromStep(1) on the
failed two-step run leaves the run completed and step 1 completed. -/
theorem C2_amended_witness :
    (retryFromStep allOkOracle ((1 : Nat) : Int) failedPlannerState).2.run.status =
      RunStatus.completed :=
  (C2_amended_completed_from_start_index.2.2.2 allOkOracle 1 failedPlannerState
    ((retryFromStep allOkOracle ((1 : Nat) : Int) failedPlannerState).2.run)
    (by rfl)).1

/-- C4: for a workflow with N steps and retry bound r, if the dispatcher
for step k's role fails with the same message on every invocation while
the dispatchers for the roles of steps 0..k-1 always succeed, then
executeWorkflow from step 0 on a fresh engine leaves steps 0..k-1
completed, step k failed with the error message recorded after exactly
r + 1 dispatcher attempts, steps k+1..N-1 pending, the run failed with
run.error the failure message, and the failure propagated to the
caller. -/
theorem C4_always_failing_step_k (oracle : Oracle) (config : List WorkflowStep)
    (r k : Nat) (stk : WorkflowStep) (emsg : String) (runId wf : String) (c0 : Nat)
    (hk : config[k]? = some stk)
    (hfail : ∀ hist, oracle hist stk.role = .error emsg)
    (hok : ∀ j st, j < k → config[j]? = some st →
      ∀ hist, ∃ a, oracle hist st.role = .ok a) :
    (executeWorkflow oracle config { retries := some r, resumeFromStep := none }
      (mkEngine runId wf c0)).1 = .error emsg ∧
    (∀ j, j < k →
      ∃ sr, (executeWorkflow oracle config { retries := some r, resumeFromStep := none }
        (mkEngine runId wf c0)).2.run.steps[j]? = some sr ∧
        sr.status = StepStatus.completed) ∧
    (∃ sr, (executeWorkflow oracle config { retries := some r, resumeFromStep := none }
      (mkEngine runId wf c0)).2.run.steps[k]? = some sr ∧
      sr.status = StepStatus.failed ∧ sr.error = some emsg) ∧
    (∀ j, k < j → j < config.length →
      ∃ sr, (executeWorkflow oracle config { retries := some r, resumeFromStep := none }
        (mkEngine runId wf c0)).2.run.steps[j]? = some sr ∧
        sr.status = StepStatus.pending) ∧
    (executeWorkflow oracle config { retries := some r, resumeFromStep := none }
      (mkEngine runId wf c0)).2.run.status = RunStatus.failed ∧
    (executeWorkflow oracle config { retries := some r, resumeFromStep := none }
      (mkEngine runId wf c0)).2.run.error = some emsg ∧
    (executeWorkflow oracle config { retries := some r, resumeFromStep := none }
      (mkEngine runId wf c0)).2.calls.countP (fun p => p.1 == k) = r + 1 := by
  have hkN : k < config.length := (List.getElem?_eq_some.mp hk).1
  set s₀ : EngineState := initRun config (mkEngine runId wf c0) with hs₀
  have hsteps₀ : s₀.run.steps = config.map freshStepResult := rfl
  have hcalls₀ : s₀.calls = [] := rfl
  have hgetk : s₀.run.steps[k]? = some (freshStepResult stk) := by
    rw [hsteps₀, List.getElem?_map, hk]
    rfl
  have hokS : ∀ j sr, 0 ≤ j → j < k → s₀.run.steps[j]? = some sr →
      ∀ hist, ∃ a, oracle hist sr.step.role = .ok a := by
    intro j sr _ hj hget hist
    rw [hsteps₀, List.getElem?_map] at hget
    rcases Option.map_eq_some'.mp hget with ⟨st, hst, he⟩
    rw [show sr = freshStepResult st from he.symm]
    exact hok j st hj hst hist
  obtain ⟨f1, f2, f3, f4, f5, f6, f7, f8⟩ :=
    stepsLoop_fail_at oracle r stk.role emsg hfail (config.length - 0) 0 s₀ k
      (Nat.zero_le k) (by omega) ⟨freshStepResult stk, hgetk, rfl⟩ hokS
  rcases hL : stepsLoop oracle r (config.length - 0) 0 s₀ with ⟨res, s'⟩
  rw [hL] at f1 f2 f3 f4 f5 f6 f7 f8
  dsimp only at f1 f2 f3 f4 f5 f6 f7 f8
  subst f1
  simp only [executeWorkflow]
  rw [← hs₀]
  simp only [executeWorkflowSteps, Option.getD, hL, tick, logEv, saveMetadata]
  refine ⟨trivial, fun j hj => f3 j (Nat.zero_le j) hj, f4, ?_, trivial, trivial, ?_⟩
  · intro j hj1 hj2
    have hje : s'.run.steps[j]? = s₀.run.steps[j]? := f2 j (Or.inr hj1)
    rw [hje, hsteps₀, List.getElem?_map, List.getElem?_eq_getElem hj2]
    exact ⟨freshStepResult config[j], rfl, rfl⟩
  · rw [f8, hcalls₀]
    simp

/-- Witness for C4: the spec's concrete scenario - the four-step build
workflow, a verifier dispatcher that always raises "lint failed",
retries = 1: two recorded verifier attempts, run failed with error
"lint failed", steps[2] failed, steps[3] pending. -/
theorem C4_witness :
    (executeWorkflow lintFailOracle buildWorkflow
      { retries := some 1, resumeFromStep := none } (mkEngine "run-3" "build" 0)).1 =
        .error "lint failed" ∧
    ((executeWorkflow lintFailOracle buildWorkflow
      { retries := some 1, resumeFromStep := none }
      (mkEngine "run-3" "build" 0)).2.run.steps[2]?).map (fun sr => sr.status) =
        some StepStatus.failed ∧
    ((executeWorkflow lintFailOracle buildWorkflow
      { retries := some 1, resumeFromStep := none }
      (mkEngine "run-3" "build" 0)).2.run.steps[3]?).map (fun sr => sr.status) =
        some StepStatus.pending ∧
    (executeWorkflow lintFailOracle buildWorkflow
      { retries := some 1, resumeFromStep := none }
      (mkEngine "run-3" "build" 0)).2.run.status = RunStatus.failed ∧
    (executeWorkflow lintFailOracle buildWorkflow
      { retries := some 1, resumeFromStep := none }
      (mkEngine "run-3" "build" 0)).2.run.error = some "lint failed" ∧
    (executeWorkflow lintFailOracle buildWorkflow
      { retries := some 1, resumeFromStep := none }
      (mkEngine "run-3" "build" 0)).2.calls.countP (fun p => p.1 == 2) = 2 := by
  have hok : ∀ j st, j < 2 → buildWorkflow[j]? = some st →
      ∀ hist, ∃ a, lintFailOracle hist st.role = .ok a := by
    intro j st hj hget hist
    interval_cases j
    · have h : (⟨.planner, "Plan Generation",
          "Generate implementation plan from blueprint"⟩ : WorkflowStep) = st := by
        injection hget
      rw [← h]
      exact ⟨["artifact.txt"], rfl⟩
    · have h : (⟨.builder, "Code Generation",
          "Generate unified diffs and tests"⟩ : WorkflowStep) = st := by
        injection hget
      rw [← h]
      exact ⟨["artifact.txt"], rfl⟩
  obtain ⟨g1, g2, ⟨srk, g3, g4, g5⟩, g6, g7, g8, g9⟩ :=
    C4_always_failing_step_k lintFailOracle buildWorkflow 1 2
      { role := .verifier, name := "Verification",
        description := "Apply patches and run verification gates" }
      "lint failed" "run-3" "build" 0 (by rfl) (fun hist => rfl) hok
  refine ⟨g1, ?_, ?_, g7, g8, g9⟩
  · rw [g3]
    simp [g4]
  · obtain ⟨sr3, h3, h4⟩ := g6 3 (by omega) (by decide)
    rw [h3]
    simp [h4]

/-- C1 (code bug): on a persisted run whose step 0 is completed (with
startedAt, completedAt, duration and artifacts recorded) and step 1
failed, resume does find the first pending-or-failed step (index 1) and
executes forward from it - but because resume delegates to
executeWorkflow, whose initialize resets run.steps to fresh pending
StepResults, step 0 does NOT keep its recorded fields: after resume it
is pending with startedAt, completedAt, duration and artifacts all
cleared, while the run still ends completed. -/
theorem C1_resume_wipes_prior_steps :
    (failedBuildState.run.steps[0]?).map (fun sr => sr.status) =
      some StepStatus.completed ∧
    (failedBuildState.run.steps[0]?).map (fun sr => sr.startedAt) = some (some 1) ∧
    (failedBuildState.run.steps[0]?).map (fun sr => sr.completedAt) = some (some 3) ∧
    (failedBuildState.run.steps[0]?).map (fun sr => sr.duration) = some (some 2) ∧
    (failedBuildState.run.steps[0]?).map (fun sr => sr.artifacts) =
      some (some ["artifact.txt"]) ∧
    ((resume allOkOracle failedBuildState).2.run.steps[0]?).map (fun sr => sr.status) =
      some StepStatus.pending ∧
    ((resume allOkOracle failedBuildState).2.run.steps[0]?).map
      (fun sr => sr.startedAt) = some none ∧
    ((resume allOkOracle failedBuildState).2.run.steps[0]?).map
      (fun sr => sr.completedAt) = some none ∧
    ((resume allOkOracle failedBuildState).2.run.steps[0]?).map
      (fun sr => sr.duration) = some none ∧
    ((resume allOkOracle failedBuildState).2.run.steps[0]?).map
      (fun sr => sr.artifacts) = some none ∧
    (resume allOkOracle failedBuildState).2.run.status = RunStatus.completed := by
  refine ⟨by decide, by decide, by decide, by decide, by decide, by decide,
    by decide, by decide, by decide, by decide, by decide⟩

/-- C3 (code bug): a StepResult moves from completed back to pending on
a path that is not retry-from-step: resume (through executeWorkflow's
initialize) resets the completed step 0 of the persisted failed run to
pending - a transition the claimed step state machine does not allow. -/
theorem C3_completed_to_pending_outside_retryFromStep :
    (failedBuildState.run.steps[0]?).map (fun sr => sr.status) =
      some StepStatus.completed ∧
    ((resume allOkOracle failedBuildState).2.run.steps[0]?).map (fun sr => sr.status) =
      some StepStatus.pending := by
  exact ⟨by decide, by decide⟩

end Claims

end CodeOS
